import Mathlib

/-!
Verification of the haiyiyun/session manager against its specification.

The Go sources are shallowly embedded: strings are lists of characters
(`Str`), byte sequences are lists of naturals below 256, `time.Time` and
`time.Duration` are integers counted in nanoseconds (`nsPerSec` converting
seconds), and the external key-value cache is an association list from keys
to values with their ttl.  Library primitives from the Go standard library
(`encoding/base64` URL encoding, HMAC-SHA256) are embedded concretely where
their algorithm matters (base64) and abstracted as function parameters where
only their input/output contract matters (the MAC).
-/

set_option maxRecDepth 4096

abbrev Str := List Char

/-! ## base64url (Go `encoding/base64` URLEncoding, padded, non-strict) -/

/-- Alphabet of `base64.URLEncoding`: `A-Z a-z 0-9 - _`. -/
def b64Char (n : Nat) : Char :=
  if n < 26 then Char.ofNat (65 + n)
  else if n < 52 then Char.ofNat (97 + (n - 26))
  else if n < 62 then Char.ofNat (48 + (n - 52))
  else if n = 62 then '-'
  else '_'

/-- Inverse alphabet lookup; `none` for characters outside the alphabet
(including `=`), matching Go's CorruptInputError. -/
def b64Val (c : Char) : Option Nat :=
  if 'A' ≤ c ∧ c ≤ 'Z' then some (c.toNat - 65)
  else if 'a' ≤ c ∧ c ≤ 'z' then some (c.toNat - 97 + 26)
  else if '0' ≤ c ∧ c ≤ '9' then some (c.toNat - 48 + 52)
  else if c = '-' then some 62
  else if c = '_' then some 63
  else none

/-- `base64.URLEncoding.EncodeToString`: three input bytes become four
alphabet characters, a final group of one or two bytes is padded with `=`. -/
def b64EncodeBytes : List Nat → List Char
  | [] => []
  | [a] => [b64Char (a / 4), b64Char (a % 4 * 16), '=', '=']
  | [a, b] => [b64Char (a / 4), b64Char (a % 4 * 16 + b / 16), b64Char (b % 16 * 4), '=']
  | a :: b :: c :: rest =>
      b64Char (a / 4) :: b64Char (a % 4 * 16 + b / 16) ::
        b64Char (b % 16 * 4 + c / 64) :: b64Char (c % 64) :: b64EncodeBytes rest

/-- `base64.URLEncoding.DecodeString`: quanta of four characters, `=` padding
allowed only at the very end, input length must be a multiple of four.
Like Go's default (non-strict) decoder, trailing bits of the final partial
quantum are discarded without being checked. -/
def b64DecodeChars : List Char → Option (List Nat)
  | [] => some []
  | c1 :: c2 :: c3 :: c4 :: rest =>
    match b64Val c1, b64Val c2 with
    | some v1, some v2 =>
      if c3 = '=' then
        if c4 = '=' ∧ rest = [] then some [v1 * 4 + v2 / 16] else none
      else
        match b64Val c3 with
        | some v3 =>
          if c4 = '=' then
            if rest = [] then some [v1 * 4 + v2 / 16, v2 % 16 * 16 + v3 / 4] else none
          else
            match b64Val c4 with
            | some v4 =>
                (b64DecodeChars rest).map
                  (fun t => (v1 * 4 + v2 / 16) :: (v2 % 16 * 16 + v3 / 4) :: (v3 % 4 * 64 + v4) :: t)
            | none => none
        | none => none
    | _, _ => none
  | _ => none

/-! ## Cookie signing (manager.go: signSessionID / verifySignature)

`crypto/hmac` with SHA-256 over the manager's signing key is repository-external;
it is abstracted as a function `mac : Str → List Nat` standing for
`HMAC-SHA256(signingKey, ·)`.  `strings.SplitN(v, ".", 2)` is embedded as
`splitDot2`, which yields the part before the first dot and the rest, or
`none` when no dot occurs (Go then returns a one-element slice and
`verifySignature` fails the `len(parts) != 2` check). -/

def splitDot2 : Str → Option (Str × Str)
  | [] => none
  | c :: t =>
    if c = '.' then some ([], t)
    else
      match splitDot2 t with
      | some (a, b) => some (c :: a, b)
      | none => none

/-- manager.go `signSessionID`: the signed cookie value is
`sessionID + "." + base64url(HMAC-SHA256(sessionID))`. -/
def signSessionID (mac : Str → List Nat) (sessionID : Str) : Str :=
  sessionID ++ '.' :: b64EncodeBytes (mac sessionID)

/-- manager.go `verifySignature`: split at the first dot, base64-decode the
second part, recompute the MAC over the first part and compare
(`hmac.Equal`, i.e. plain byte-list equality in the model).  Malformed
structure and decode failure return `("", false)`. -/
def verifySignature (mac : Str → List Nat) (signedValue : Str) : Str × Bool :=
  match splitDot2 signedValue with
  | none => ([], false)
  | some (sessionID, sigPart) =>
    match b64DecodeChars sigPart with
    | none => ([], false)
    | some signature => (sessionID, decide (signature = mac sessionID))

/-! ## Time

Go `time.Time` and `time.Duration` both become `Int`, counted in
nanoseconds; `time.Until(e)` at instant `now` is `e - now`, `time.Since(t)`
is `now - t`, and `5*time.Second` is `5 * nsPerSec`. -/

def nsPerSec : Int := 1000000000

/-! ## Session entity (session_data.go)

`Data map[string]interface{}` becomes an association list from `Str` to an
arbitrary value type `V`; Go maps have unique keys, which re-appears below
as a `Nodup` hypothesis on decoded records.  Every method that calls
`time.Now()` receives the instant `now` explicitly; methods that never look
at the clock (`Delete`, `ID`, `ExpireAt`, `Destroy`) still receive it, to
make "executed at time now" statable, but their bodies ignore it exactly as
the Go bodies do. -/

structure SessionData (V : Type) where
  sessionID : Str
  securityToken : Str
  data : List (Str × V)
  expiration : Int
  lastActive : Int
deriving DecidableEq

/-- Go map read `m[key]`: first (unique) binding of the key. -/
def lookupData {V : Type} (l : List (Str × V)) (k : Str) : Option V :=
  match l with
  | [] => none
  | p :: t => if p.1 = k then some p.2 else lookupData t k

/-- Go map write `m[key] = v`: replace the binding if present, else append. -/
def upsertData {V : Type} (l : List (Str × V)) (k : Str) (v : V) : List (Str × V) :=
  if l.any (fun p => p.1 = k) then l.map (fun p => if p.1 = k then (k, v) else p)
  else l ++ [(k, v)]

/-- Go `delete(m, key)`. -/
def removeData {V : Type} (l : List (Str × V)) (k : Str) : List (Str × V) :=
  l.filter (fun p => p.1 ≠ k)

/-- session_data.go `NewSessionData`. -/
def NewSessionData {V : Type} (now : Int) (id securityToken : Str) (duration : Int) :
    SessionData V :=
  { sessionID := id, securityToken := securityToken, data := [],
    expiration := now + duration, lastActive := now }

/-- session_data.go `Touch`: LastActive = now. -/
def SessionData.touch {V : Type} (now : Int) (s : SessionData V) : SessionData V :=
  { s with lastActive := now }

/-- session_data.go `Get`: touches, then reads the map. -/
def SessionData.get {V : Type} (now : Int) (s : SessionData V) (k : Str) :
    Option V × SessionData V :=
  (lookupData s.data k, s.touch now)

/-- session_data.go `Set`: touches, then upserts. -/
def SessionData.set {V : Type} (now : Int) (s : SessionData V) (k : Str) (v : V) :
    SessionData V :=
  { s.touch now with data := upsertData s.data k v }

/-- session_data.go `Delete`: removes the key; the body never reads the clock. -/
def SessionData.delete {V : Type} (_now : Int) (s : SessionData V) (k : Str) :
    SessionData V :=
  { s with data := removeData s.data k }

/-- session_data.go `Renew`: Expiration = now + duration; LastActive untouched. -/
def SessionData.renew {V : Type} (now : Int) (s : SessionData V) (duration : Int) :
    SessionData V :=
  { s with expiration := now + duration }

/-- session_data.go `ID`. -/
def SessionData.id {V : Type} (s : SessionData V) : Str := s.sessionID

/-- session_data.go `ExpireAt`. -/
def SessionData.expireAt {V : Type} (s : SessionData V) : Int := s.expiration

/-! ## External cache (collaborator of cache_adapter.go)

The `cache.Cache` collaborator stores raw values under string keys with a
ttl.  The adapter writes `[]byte` values and `RegenerateSessionID` writes a
raw string under its lock key, so a cache cell holds either; gob-serialized
bytes are abstracted over an element type `α`.  The state is an association
list; `Set` replaces, `Delete` erases, `Add` is atomic create-if-absent and
reports an already-exists failure. -/

inductive CVal (α : Type) where
  | bytes (bs : List α)
  | str (s : Str)
deriving DecidableEq

def CacheSt (α : Type) : Type := List (Str × CVal α × Int)

def cacheLookup {α : Type} (st : CacheSt α) (k : Str) : Option (CVal α × Int) :=
  match st with
  | [] => none
  | e :: t => if e.1 = k then some e.2 else cacheLookup t k

/-- Removal of every cell under a key. -/
def eraseKey {α : Type} : CacheSt α → Str → CacheSt α
  | [], _ => []
  | e :: t, k => if e.1 = k then eraseKey t k else e :: eraseKey t k

def cacheSet {α : Type} (st : CacheSt α) (k : Str) (v : CVal α) (ttl : Int) : CacheSt α :=
  (k, v, ttl) :: eraseKey st k

def cacheDelete {α : Type} (st : CacheSt α) (k : Str) : CacheSt α :=
  eraseKey st k

/-- `Add` per the haiyiyun/cache contract: create-if-absent, the occupied
case failing with an "already exists" error (`Except.error ()`). -/
def cacheAdd {α : Type} (st : CacheSt α) (k : Str) (v : CVal α) (ttl : Int) :
    Except Unit (CacheSt α) :=
  match cacheLookup st k with
  | some _ => .error ()
  | none => .ok (cacheSet st k v ttl)

/-! ## Cache adapter (cache_adapter.go)

Gob encoding of a `SessionData V` is abstracted as `enc : SessionData V →
List α` with partial inverse `dec`; a decode error is `dec = none`.  The
adapter's `Get` outcome mirrors the Go `(found, err)` pair: `notFound` is
`(false, nil)`, `decodeErr` is a non-nil error, `found` is `(true, nil)`
with the target filled. -/

inductive AGet (V : Type) where
  | notFound
  | decodeErr
  | found (sd : SessionData V)
deriving DecidableEq

/-- cache_adapter.go `Get`: raw fetch, then the zero-length tombstone check
(`len(data) == 0` ⇒ not-found, no decode attempted), then gob decode.
A raw-string cell under the key cannot fill a `[]byte` target, which
surfaces as an error like a decode failure. -/
def adapterGet {α V : Type} (dec : List α → Option (SessionData V))
    (st : CacheSt α) (k : Str) : AGet V :=
  match cacheLookup st k with
  | none => .notFound
  | some (.str _, _) => .decodeErr
  | some (.bytes bs, _) =>
    match bs with
    | [] => .notFound
    | _ =>
      match dec bs with
      | none => .decodeErr
      | some sd => .found sd

/-- cache_adapter.go `Set`: `nil` data writes the zero-length tombstone with
the given ttl, otherwise the gob bytes are written.  (The Go type check on
`interface{}` cannot fire in this typed embedding and is omitted.) -/
def adapterSet {α V : Type} (enc : SessionData V → List α)
    (st : CacheSt α) (k : Str) (d : Option (SessionData V)) (ttl : Int) : CacheSt α :=
  match d with
  | none => cacheSet st k (.bytes []) ttl
  | some sd => cacheSet st k (.bytes (enc sd)) ttl

/-- cache_adapter.go `Delete`: best effort, never an error. -/
def adapterDelete {α : Type} (st : CacheSt α) (k : Str) : CacheSt α :=
  cacheDelete st k

/-- cache_adapter.go `Add`: pass-through to the cache primitive. -/
def adapterAdd {α : Type} (st : CacheSt α) (k : Str) (s : Str) (ttl : Int) :
    Except Unit (CacheSt α) :=
  cacheAdd st k (.str s) ttl

/-! ## Session manager (manager.go)

The manager's configuration (`ComplianceConfig`) and the codec/MAC
parameters are passed explicitly; nondeterministic inputs of an operation
(the clock, the freshly minted UUID and security token) are explicit
arguments.  Each operation returns the updated cache state together with the
Go result, errors mirrored by `MErr`. -/

inductive MErr where
  | notFound            -- "session not found"
  | inactivityExpired   -- "session expired due to inactivity"
  | decodeFailure       -- error propagated from the adapter's gob decode
  | lockContention      -- "acquire lock failed: lock already exists"
  | nilOldData          -- "old session data is nil"
deriving DecidableEq

/-- manager.go `checkInactivity`: only when `InactivityTimeout > 0`, the
session is inactive iff `time.Since(LastActive) > InactivityTimeout`. -/
def checkInactivity {V : Type} (inactivityTimeout now : Int) (s : SessionData V) : Bool :=
  if 0 < inactivityTimeout then decide (now - s.lastActive > inactivityTimeout)
  else false

/-- manager.go `Get`: load via the adapter; a decode error propagates; a
miss (including tombstones) writes a fresh 5-second tombstone and reports
not-found; an inactive session is destroyed and reported expired; otherwise
the record is touched and re-persisted with ttl `time.Until(Expiration)`. -/
def managerGet {α V : Type} (dec : List α → Option (SessionData V))
    (enc : SessionData V → List α) (inactivityTimeout : Int)
    (now : Int) (st : CacheSt α) (sessionID : Str) :
    CacheSt α × Except MErr (SessionData V) :=
  match adapterGet dec st sessionID with
  | .decodeErr => (st, .error .decodeFailure)
  | .notFound => (cacheSet st sessionID (.bytes []) (5 * nsPerSec), .error .notFound)
  | .found data =>
    if checkInactivity inactivityTimeout now data then
      (adapterDelete st sessionID, .error .inactivityExpired)
    else
      let touched := data.touch now
      (adapterSet enc st sessionID (some touched) (touched.expiration - now), .ok touched)

/-- manager.go `Destroy`: adapter delete. -/
def managerDestroy {α : Type} (st : CacheSt α) (sessionID : Str) : CacheSt α :=
  adapterDelete st sessionID

/-- manager.go `Refresh`: `Get`, then `Renew(duration)` on the entity, then
clamp only the ttl to `MaxSessionDuration` when that is configured, and
persist.  (The security-token refresh is commented out in the source.) -/
def managerRefresh {α V : Type} (dec : List α → Option (SessionData V))
    (enc : SessionData V → List α) (inactivityTimeout maxSessionDuration : Int)
    (now : Int) (st : CacheSt α) (sessionID : Str) (duration : Int) :
    CacheSt α × Except MErr Unit :=
  match managerGet dec enc inactivityTimeout now st sessionID with
  | (st1, .error e) => (st1, .error e)
  | (st1, .ok sd) =>
    let sd' := sd.renew now duration
    let ttl := if 0 < maxSessionDuration then min duration maxSessionDuration else duration
    (adapterSet enc st1 sessionID (some sd') ttl, .ok ())

/-- manager.go: the literal `"hyy_session_lock:" + oldSessionID`. -/
def lockKeyOf (oldSessionID : Str) : Str := "hyy_session_lock:".toList ++ oldSessionID

/-- manager.go: the lock cell's value, `"hyy_locked"`. -/
def lockValue : Str := "hyy_locked".toList

/-- The copy loop of `RegenerateSessionID`: every key/value of the old map
written into the (freshly initialized, empty) new map. -/
def copyData {V : Type} (l : List (Str × V)) : List (Str × V) :=
  l.foldl (fun acc p => upsertData acc p.1 p.2) []

/-- manager.go `RegenerateSessionID`: take the cache lock by atomic `Add`
under `lockKeyOf oldID` with a 5-second ttl (an already-exists failure is
surfaced as lock contention); load the old session through `Get`; abort with
the "old session data is nil" error when the loaded record's Data map is
nil; otherwise build a new entity under the fresh `newID` keeping the
remaining ttl `time.Until(old.ExpireAt())`, copy the Data entries, persist
the new record, and delete the old one; the lock is released by an explicit
delete on every path after acquisition (the Go `defer`).

The nil check is reachable: gob omits empty maps when encoding, so a record
whose map had no entries decodes with a nil Data map.  A nil Go map is
represented here as `[]`, and since every record reaching this point has
been gob-decoded by `Get`, its Data is nil exactly when it is empty; the
source's `oldData.Data == nil` test therefore fires on `data = []`.  The
complementary `newSessionData.Data == nil` re-initialization cannot fire
(`NewSessionData` always allocates the map).  The in-process mutex
serializes calls within one process and has no effect on this single-call
semantics; the delete retry loop is invisible here because the modelled
delete cannot fail. -/
def managerRegenerate {α V : Type} (dec : List α → Option (SessionData V))
    (enc : SessionData V → List α) (inactivityTimeout : Int)
    (now : Int) (newID token : Str) (st : CacheSt α) (oldSessionID : Str) :
    CacheSt α × Except MErr Str :=
  let lockKey := lockKeyOf oldSessionID
  match adapterAdd st lockKey lockValue (5 * nsPerSec) with
  | .error _ => (st, .error .lockContention)
  | .ok st1 =>
    match managerGet dec enc inactivityTimeout now st1 oldSessionID with
    | (st2, .error e) => (cacheDelete st2 lockKey, .error e)
    | (st2, .ok oldData) =>
      if oldData.data.isEmpty then (cacheDelete st2 lockKey, .error .nilOldData)
      else
        let fresh : SessionData V :=
          NewSessionData now newID token (oldData.expireAt - now)
        let newData := { fresh with data := copyData oldData.data }
        let st3 := adapterSet enc st2 newID (some newData) (newData.expiration - now)
        let st4 := adapterDelete st3 oldSessionID
        (cacheDelete st4 lockKey, .ok newID)

/-! ## Cookie path matching (GetFromRequest)

The version of manager.go holding the `cookiePath` field and the request
path check is not among the sources; only its option declaration
(`WithCookiePath` in options.go) and its tests are.  The matching rule is
therefore modelled from the spec. -/

/-- Modelled from the spec: the request-path check of `GetFromRequest`,
missing from the available manager.go.  "exact match; or cookiePath is a
prefix of requestPath and either cookiePath ends in `/` or the character
following the prefix in requestPath is `/`". -/
def matchCookiePath (cookiePath requestPath : Str) : Bool :=
  requestPath = cookiePath ∨
    (cookiePath.isPrefixOf requestPath ∧
      (cookiePath.getLast? = some '/' ∨ requestPath.getD cookiePath.length ' ' = '/'))

/-- Errors of `GetFromRequest` around the delegated `managerGet`. -/
inductive ReqErr where
  | cookieNotFound
  | pathMismatch
  | invalidSignature
  | mgr (e : MErr)
deriving DecidableEq

/-- Modelled from the spec: `GetFromRequest` — read the named cookie (its
value, if the request carries it, is the `cookie` argument), validate the
request path against the configured cookie path, verify the signature, and
delegate to `Get`. -/
def managerGetFromRequest {α V : Type} (dec : List α → Option (SessionData V))
    (enc : SessionData V → List α) (inactivityTimeout : Int)
    (mac : Str → List Nat) (cookiePath requestPath : Str)
    (now : Int) (st : CacheSt α) (cookie : Option Str) :
    CacheSt α × Except ReqErr (SessionData V) :=
  match cookie with
  | none => (st, .error .cookieNotFound)
  | some value =>
    if matchCookiePath cookiePath requestPath then
      match verifySignature mac value with
      | (sessionID, true) =>
        match managerGet dec enc inactivityTimeout now st sessionID with
        | (st', .ok sd) => (st', .ok sd)
        | (st', .error e) => (st', .error (.mgr e))
      | (_, false) => (st, .error .invalidSignature)
    else (st, .error .pathMismatch)

/-! ## Witness instantiations

Concrete codec for closed evaluations: the "byte" type is the record type
itself, gob-encoding a record as the singleton list holding it. -/

abbrev SDN := SessionData Nat

def encW : SDN → List SDN := fun sd => [sd]

def decW : List SDN → Option SDN :=
  fun l => match l with
  | [x] => some x
  | _ => none

/-- A concrete stand-in for `HMAC-SHA256(signingKey, ·)` in closed runs:
every MAC value is the 32-byte all-zero string (a possible HMAC output). -/
def macZ : Str → List Nat := fun _ => List.replicate 32 0

/-- The base64url signature part of `signSessionID` under `macZ` is
`"AAA…A="` (43 `A`s); this value differs from it in a single bit of one
character: the 43rd character `A` (0x41) becomes `C` (0x43). -/
def corruptedSig : Str := List.replicate 42 'A' ++ ['C', '=']

/-! ## Security token validation (unnamed part_004: validateSecurityToken)

`hmac.New(sha256, secretKey)` is abstracted as `mac : List Nat → List Nat`
(HMAC-SHA256 under the fixed secret key); `generateTokenSignature` truncates
its output to 4 bytes.  The 4-byte big-endian timestamp is reassembled with
the source's shifts and ORs; the operands occupy disjoint bit ranges because
decoded base64 bytes are below 256. -/

/-- The embedded timestamp `int64(data[32])<<24 | … | int64(data[35])`,
in seconds. -/
def tsVal (data : List Nat) : Nat :=
  ((data.getD 32 0) <<< 24) ||| ((data.getD 33 0) <<< 16) |||
    ((data.getD 34 0) <<< 8) ||| data.getD 35 0

/-- `time.Unix(timestamp, 0)` on the model's nanosecond axis. -/
def tokenTimeNs (data : List Nat) : Int := (tsVal data : Int) * nsPerSec

/-- part_004 `validateSecurityToken`: reject when the encoded length is
below `EncodedLen(40) = 56`, when base64 decoding fails, or when fewer than
40 bytes come out; then the dead "older than one hour AND in the future"
check; then the ±30-second clock-drift window (inclusive, as `Before` and
`After` are strict); finally compare `data[36:40]` against the 4-byte
truncated HMAC of the 32 random bytes. -/
def validateSecurityToken (mac : List Nat → List Nat) (now : Int) (token : Str) : Bool :=
  if token.length < 56 then false
  else
    match b64DecodeChars token with
    | none => false
    | some data =>
      if data.length < 40 then false
      else
        if now - tokenTimeNs data > 3600 * nsPerSec ∧ tokenTimeNs data > now then false
        else if tokenTimeNs data < now - 30 * nsPerSec ∨ tokenTimeNs data > now + 30 * nsPerSec
          then false
        else decide ((data.drop 36).take 4 = (mac (data.take 32)).take 4)

/-- `validateSecurityToken` with the 1-hour branch deleted; used to state
that the ±30-second rule alone is binding. -/
def validateDrift (mac : List Nat → List Nat) (now : Int) (token : Str) : Bool :=
  if token.length < 56 then false
  else
    match b64DecodeChars token with
    | none => false
    | some data =>
      if data.length < 40 then false
      else
        if tokenTimeNs data < now - 30 * nsPerSec ∨ tokenTimeNs data > now + 30 * nsPerSec
          then false
        else decide ((data.drop 36).take 4 = (mac (data.take 32)).take 4)

/-- The 40 decoded bytes of the witness token: 32 zero "random" bytes, the
big-endian timestamp 10, and the 4 signature bytes. -/
def dataW : List Nat := List.replicate 32 0 ++ [0, 0, 0, 10, 1, 2, 3, 4]

/-- The concrete truncated-HMAC stand-in for the witness. -/
def mac4 : List Nat → List Nat := fun _ => [1, 2, 3, 4]

theorem b64Val_b64Char : ∀ n < 64, b64Val (b64Char n) = some n := by decide

theorem b64Char_ne_pad : ∀ n < 64, b64Char n ≠ '=' := by decide

theorem b64Char_ne_dot : ∀ n < 64, b64Char n ≠ '.' := by decide

/-- Decoding inverts encoding on genuine byte lists. -/
theorem b64_decode_encode :
    ∀ bs : List Nat, (∀ b ∈ bs, b < 256) →
      b64DecodeChars (b64EncodeBytes bs) = some bs
  | [], _ => rfl
  | [a], h => by
      have ha : a < 256 := h a (by simp)
      have h1 := b64Val_b64Char (a / 4) (by omega)
      have h2 := b64Val_b64Char (a % 4 * 16) (by omega)
      simp only [b64EncodeBytes, b64DecodeChars, h1, h2, if_pos rfl,
        and_self, if_true, Option.some.injEq, List.cons.injEq, and_true]
      omega
  | [a, b], h => by
      have ha : a < 256 := h a (by simp)
      have hb : b < 256 := h b (by simp)
      have h1 := b64Val_b64Char (a / 4) (by omega)
      have h2 := b64Val_b64Char (a % 4 * 16 + b / 16) (by omega)
      have h3 := b64Val_b64Char (b % 16 * 4) (by omega)
      have hne := b64Char_ne_pad (b % 16 * 4) (by omega)
      simp only [b64EncodeBytes, b64DecodeChars, h1, h2, h3, if_neg hne,
        if_pos rfl, if_true, Option.some.injEq, List.cons.injEq, and_true]
      omega
  | a :: b :: c :: rest, h => by
      have ha : a < 256 := h a (by simp)
      have hb : b < 256 := h b (by simp)
      have hc : c < 256 := h c (by simp)
      have ih := b64_decode_encode rest
        (fun x hx => h x (List.mem_cons_of_mem a (List.mem_cons_of_mem b
          (List.mem_cons_of_mem c hx))))
      have h1 := b64Val_b64Char (a / 4) (by omega)
      have h2 := b64Val_b64Char (a % 4 * 16 + b / 16) (by omega)
      have h3 := b64Val_b64Char (b % 16 * 4 + c / 64) (by omega)
      have h4 := b64Val_b64Char (c % 64) (by omega)
      have hne3 := b64Char_ne_pad (b % 16 * 4 + c / 64) (by omega)
      have hne4 := b64Char_ne_pad (c % 64) (by omega)
      simp only [b64EncodeBytes, b64DecodeChars, h1, h2, h3, h4,
        if_neg hne3, if_neg hne4, ih, Option.map_some', Option.some.injEq,
        List.cons.injEq]
      refine ⟨by omega, by omega, by omega, trivial⟩

/-- Every character of an encoded value lies in the alphabet or is padding,
so in particular is never a dot. -/
theorem b64_encode_no_dot :
    ∀ bs : List Nat, (∀ b ∈ bs, b < 256) → '.' ∉ b64EncodeBytes bs
  | [], _ => by simp [b64EncodeBytes]
  | [a], h => by
      have ha : a < 256 := h a (by simp)
      have n1 := b64Char_ne_dot (a / 4) (by omega)
      have n2 := b64Char_ne_dot (a % 4 * 16) (by omega)
      simp only [b64EncodeBytes, List.mem_cons, List.not_mem_nil, or_false, not_or]
      exact ⟨Ne.symm n1, Ne.symm n2, by decide, by decide⟩
  | [a, b], h => by
      have ha : a < 256 := h a (by simp)
      have hb : b < 256 := h b (by simp)
      have n1 := b64Char_ne_dot (a / 4) (by omega)
      have n2 := b64Char_ne_dot (a % 4 * 16 + b / 16) (by omega)
      have n3 := b64Char_ne_dot (b % 16 * 4) (by omega)
      simp only [b64EncodeBytes, List.mem_cons, List.not_mem_nil, or_false, not_or]
      exact ⟨Ne.symm n1, Ne.symm n2, Ne.symm n3, by decide⟩
  | a :: b :: c :: rest, h => by
      have ha : a < 256 := h a (by simp)
      have hb : b < 256 := h b (by simp)
      have hc : c < 256 := h c (by simp)
      have ih := b64_encode_no_dot rest
        (fun x hx => h x (List.mem_cons_of_mem a (List.mem_cons_of_mem b
          (List.mem_cons_of_mem c hx))))
      have n1 := b64Char_ne_dot (a / 4) (by omega)
      have n2 := b64Char_ne_dot (a % 4 * 16 + b / 16) (by omega)
      have n3 := b64Char_ne_dot (b % 16 * 4 + c / 64) (by omega)
      have n4 := b64Char_ne_dot (c % 64) (by omega)
      simp only [b64EncodeBytes, List.mem_cons, not_or]
      exact ⟨Ne.symm n1, Ne.symm n2, Ne.symm n3, Ne.symm n4, ih⟩

theorem splitDot2_eq_none (s : Str) (h : '.' ∉ s) : splitDot2 s = none := by
  induction s with
  | nil => rfl
  | cons a t ih =>
    have ha : a ≠ '.' := fun e => h (e ▸ List.mem_cons_self a t)
    have ht : '.' ∉ t := fun hm => h (List.mem_cons_of_mem a hm)
    simp [splitDot2, ha, ih ht]

theorem splitDot2_append (id sig : Str) (hid : '.' ∉ id) :
    splitDot2 (id ++ '.' :: sig) = some (id, sig) := by
  induction id with
  | nil => simp [splitDot2]
  | cons a t ih =>
    have ha : a ≠ '.' := fun e => hid (e ▸ List.mem_cons_self a t)
    have ht : '.' ∉ t := fun hm => hid (List.mem_cons_of_mem a hm)
    simp [splitDot2, ha, ih ht]

/-! ## Helper lemmas on the cache state -/

theorem cacheLookup_eraseKey_self {α : Type} (st : CacheSt α) (k : Str) :
    cacheLookup (eraseKey st k) k = none := by
  induction st with
  | nil => rfl
  | cons e t ih =>
    by_cases he : e.1 = k
    · simpa [eraseKey, he] using ih
    · simpa [eraseKey, he, cacheLookup] using ih

theorem cacheLookup_eraseKey_ne {α : Type} (st : CacheSt α) (k k' : Str) (h : k' ≠ k) :
    cacheLookup (eraseKey st k) k' = cacheLookup st k' := by
  induction st with
  | nil => rfl
  | cons e t ih =>
    by_cases he : e.1 = k
    · have hek : ¬ e.1 = k' := fun hk => h (by rw [← hk]; exact he)
      simp only [eraseKey, if_pos he, cacheLookup, if_neg hek, ih]
    · by_cases he' : e.1 = k'
      · simp only [eraseKey, if_neg he, cacheLookup, if_pos he']
      · simp only [eraseKey, if_neg he, cacheLookup, if_neg he', ih]

theorem cacheLookup_set_self {α : Type} (st : CacheSt α) (k : Str) (v : CVal α) (ttl : Int) :
    cacheLookup (cacheSet st k v ttl) k = some (v, ttl) := by
  simp [cacheSet, cacheLookup]

theorem cacheLookup_set_ne {α : Type} (st : CacheSt α) (k k' : Str) (v : CVal α) (ttl : Int)
    (h : k' ≠ k) : cacheLookup (cacheSet st k v ttl) k' = cacheLookup st k' := by
  simp only [cacheSet, cacheLookup, if_neg (fun e : k = k' => h e.symm)]
  exact cacheLookup_eraseKey_ne st k k' h

theorem cacheLookup_delete_self {α : Type} (st : CacheSt α) (k : Str) :
    cacheLookup (cacheDelete st k) k = none :=
  cacheLookup_eraseKey_self st k

theorem cacheLookup_delete_ne {α : Type} (st : CacheSt α) (k k' : Str) (h : k' ≠ k) :
    cacheLookup (cacheDelete st k) k' = cacheLookup st k' :=
  cacheLookup_eraseKey_ne st k k' h

theorem lockKeyOf_ne_self (oldID : Str) : lockKeyOf oldID ≠ oldID := by
  intro h
  have hl := congrArg List.length h
  simp [lockKeyOf] at hl
  omega

/-! ## Helper lemmas on the Data map -/

theorem upsertData_not_mem {V : Type} (l : List (Str × V)) (k : Str) (v : V)
    (h : k ∉ l.map Prod.fst) : upsertData l k v = l ++ [(k, v)] := by
  have hany : l.any (fun p => p.1 = k) = false := by
    rw [List.any_eq_false]
    intro p hp
    simp only [decide_eq_true_eq]
    exact fun e => h (e ▸ List.mem_map_of_mem Prod.fst hp)
  simp [upsertData, hany]

theorem copyData_aux {V : Type} :
    ∀ (l acc : List (Str × V)), (∀ p ∈ l, p.1 ∉ acc.map Prod.fst) →
      (l.map Prod.fst).Nodup →
      l.foldl (fun a p => upsertData a p.1 p.2) acc = acc ++ l
  | [], acc, _, _ => by simp
  | ⟨pk, pv⟩ :: t, acc, hdisj, hnd => by
    have hp : pk ∉ acc.map Prod.fst := hdisj ⟨pk, pv⟩ (List.mem_cons_self _ t)
    have step : upsertData acc pk pv = acc ++ [(pk, pv)] := upsertData_not_mem acc pk pv hp
    have hnd0 : pk ∉ t.map Prod.fst ∧ (t.map Prod.fst).Nodup := by
      rw [List.map_cons] at hnd
      exact List.nodup_cons.1 hnd
    have hdisj' : ∀ q ∈ t, q.1 ∉ (acc ++ [(pk, pv)]).map Prod.fst := by
      intro q hq
      rw [List.map_append, List.mem_append]
      rintro (hins | hins)
      · exact hdisj q (List.mem_cons_of_mem _ hq) hins
      · simp only [List.map_cons, List.map_nil, List.mem_singleton] at hins
        exact hnd0.1 (hins ▸ List.mem_map_of_mem Prod.fst hq)
    have tail := copyData_aux t (acc ++ [(pk, pv)]) hdisj' hnd0.2
    simp only [List.foldl_cons, step, tail]
    simp

/-- The regeneration copy loop reproduces the old map exactly (Go maps have
unique keys). -/
theorem copyData_eq {V : Type} (l : List (Str × V)) (h : (l.map Prod.fst).Nodup) :
    copyData l = l := by
  have := copyData_aux l [] (by simp) h
  simpa [copyData] using this

/-- A record whose LastActive is the current instant is never inactive. -/
theorem checkInactivity_touch {V : Type} (inactT now : Int) (s : SessionData V) :
    checkInactivity inactT now (s.touch now) = false := by
  unfold checkInactivity SessionData.touch
  split
  · simp only [decide_eq_false_iff_not]
    omega
  · rfl

/-! ## Claims -/

/-- C9 (amended): `Get`, `Set` and `Touch` update LastActive to the current
time; `Delete` and `Renew` leave LastActive unchanged (`Renew` only moves
Expiration to now+duration), as do `ID` and `ExpireAt`. -/
theorem claim_C9_touch_discipline {V : Type} (now : Int) (sd : SessionData V)
    (k : Str) (v : V) (d : Int) :
    (SessionData.get now sd k).2.lastActive = now
  ∧ (SessionData.set now sd k v).lastActive = now
  ∧ (SessionData.touch now sd).lastActive = now
  ∧ (SessionData.delete now sd k).lastActive = sd.lastActive
  ∧ (SessionData.delete now sd k).data = removeData sd.data k
  ∧ (SessionData.renew now sd d).lastActive = sd.lastActive
  ∧ (SessionData.renew now sd d).expiration = now + d
  ∧ SessionData.id sd = sd.sessionID
  ∧ SessionData.expireAt sd = sd.expiration :=
  ⟨rfl, rfl, rfl, rfl, rfl, rfl, rfl, rfl, rfl⟩

/-- C9 counterexample: a record with LastActive 5 put through `Delete`
(resp. `Renew`) at current time 7 keeps LastActive 5, so neither operation
updates LastActive to the current time as the claim states for all
operations other than ID/ExpireAt. -/
theorem claim_C9_counterexample :
    (SessionData.delete 7 (⟨['i'], ['t'], [(['k'], 1)], 100, 5⟩ : SDN) ['k']).lastActive = 5
  ∧ (SessionData.renew 7 (⟨['i'], ['t'], [(['k'], 1)], 100, 5⟩ : SDN) 9).lastActive = 5
  ∧ ((5 : Int) = 7 → False) :=
  ⟨rfl, rfl, by decide⟩

/-- C7: the adapter's `Set(id, nil, ttl)` writes a zero-length tombstone
cell with that ttl, after which `Get(id)` reports not-found rather than a
decode error; in general any zero-length cell surfaced by the underlying
cache is treated by `Get` as not-found without attempting deserialization. -/
theorem claim_C7_tombstone {α V : Type} (enc : SessionData V → List α)
    (dec : List α → Option (SessionData V)) (st : CacheSt α) (k : Str) (ttl : Int) :
    adapterSet enc st k none ttl = cacheSet st k (.bytes []) ttl
  ∧ adapterGet dec (adapterSet enc st k none ttl) k = .notFound
  ∧ (∀ (st2 : CacheSt α) (t : Int), cacheLookup st2 k = some (.bytes [], t) →
      adapterGet dec st2 k = .notFound) := by
  refine ⟨rfl, ?_, ?_⟩
  · unfold adapterGet adapterSet
    rw [cacheLookup_set_self]
  · intro st2 t h
    unfold adapterGet
    rw [h]

/-- C7 witness: the adapter run on concrete states. -/
theorem claim_C7_witness :
    adapterGet decW (adapterSet encW [] ['a'] none 5) ['a'] = .notFound
  ∧ adapterGet decW ([(['b'], (.bytes [], 3))] : CacheSt SDN) ['b'] = .notFound :=
  ⟨(claim_C7_tombstone encW decW [] ['a'] 5).2.1,
   (claim_C7_tombstone encW decW [] ['b'] 3).2.2
     ([(['b'], (.bytes [], 3))] : CacheSt SDN) 3 (by decide)⟩

/-- C10: when `Manager.Get` finds no record (a true miss or a tombstone),
it writes a zero-length tombstone under the same id with a 5-second ttl
before returning the not-found error, so the error path mutates the cache. -/
theorem claim_C10_negative_caching {α V : Type} (dec : List α → Option (SessionData V))
    (enc : SessionData V → List α) (inactT now : Int) (st : CacheSt α) (k : Str)
    (hmiss : cacheLookup st k = none ∨ ∃ t, cacheLookup st k = some (.bytes [], t)) :
    managerGet dec enc inactT now st k
      = (cacheSet st k (.bytes []) (5 * nsPerSec), .error .notFound)
  ∧ cacheLookup (managerGet dec enc inactT now st k).1 k
      = some (.bytes [], 5 * nsPerSec) := by
  have hget : adapterGet dec st k = .notFound := by
    rcases hmiss with h | ⟨t, h⟩
    · unfold adapterGet; rw [h]
    · unfold adapterGet; rw [h]
  have hrun : managerGet dec enc inactT now st k
      = (cacheSet st k (.bytes []) (5 * nsPerSec), .error .notFound) := by
    unfold managerGet; rw [hget]
  refine ⟨hrun, ?_⟩
  rw [hrun]
  exact cacheLookup_set_self st k _ _

/-- C10 witness: a concrete miss. -/
theorem claim_C10_witness :
    managerGet decW encW 0 0 ([] : CacheSt SDN) ['a']
      = (cacheSet [] ['a'] (.bytes []) (5 * nsPerSec), .error .notFound) :=
  (claim_C10_negative_caching decW encW 0 0 [] ['a'] (Or.inl rfl)).1

/-- C1: on `Manager.Get`, a stored record that is inactivity-expired
(`InactivityTimeout > 0` and `now − LastActive > InactivityTimeout`) is
destroyed and the inactivity error returned, and any subsequent `Get` on the
same id reports not-found; otherwise the record is touched
(LastActive = now) and re-persisted with ttl equal to the time remaining
until its Expiration. -/
theorem claim_C1_get_lifecycle {α V : Type} (dec : List α → Option (SessionData V))
    (enc : SessionData V → List α) (inactT now : Int) (st : CacheSt α) (k : Str)
    (bs : List α) (t0 : Int) (data : SessionData V)
    (hfound : cacheLookup st k = some (.bytes bs, t0))
    (hbs : bs ≠ [])
    (hdec : dec bs = some data) :
    ((0 < inactT ∧ now - data.lastActive > inactT) →
        managerGet dec enc inactT now st k = (cacheDelete st k, .error .inactivityExpired)
      ∧ (∀ now2, (managerGet dec enc inactT now2 (cacheDelete st k) k).2 = .error .notFound))
  ∧ (¬ (0 < inactT ∧ now - data.lastActive > inactT) →
        managerGet dec enc inactT now st k
          = (cacheSet st k (.bytes (enc (data.touch now))) (data.expiration - now),
             .ok (data.touch now))
      ∧ (data.touch now).lastActive = now
      ∧ cacheLookup (managerGet dec enc inactT now st k).1 k
          = some (.bytes (enc (data.touch now)), data.expiration - now)) := by
  have hget : adapterGet dec st k = .found data := by
    cases bs with
    | nil => exact absurd rfl hbs
    | cons x xs =>
      unfold adapterGet
      rw [hfound]
      dsimp only
      rw [hdec]
  have hinact_iff : checkInactivity inactT now data = true ↔
      (0 < inactT ∧ now - data.lastActive > inactT) := by
    unfold checkInactivity
    split
    · simp only [decide_eq_true_eq]
      constructor
      · intro hgt; exact ⟨by assumption, hgt⟩
      · exact And.right
    · simp only [Bool.false_eq_true, false_iff, not_and]
      intro h0; exact absurd h0 (by assumption)
  constructor
  · intro hcond
    have hck : checkInactivity inactT now data = true := hinact_iff.mpr hcond
    have hrun : managerGet dec enc inactT now st k
        = (cacheDelete st k, .error .inactivityExpired) := by
      unfold managerGet
      rw [hget]
      dsimp only
      rw [hck]
      rfl
    refine ⟨hrun, fun now2 => ?_⟩
    have hmiss : adapterGet dec (cacheDelete st k) k = .notFound := by
      unfold adapterGet
      rw [cacheLookup_delete_self]
    unfold managerGet
    rw [hmiss]
  · intro hcond
    have hck : checkInactivity inactT now data = false := by
      cases hc : checkInactivity inactT now data
      · rfl
      · exact absurd (hinact_iff.mp hc) hcond
    have hrun : managerGet dec enc inactT now st k
        = (cacheSet st k (.bytes (enc (data.touch now))) (data.expiration - now),
           .ok (data.touch now)) := by
      unfold managerGet
      rw [hget]
      dsimp only
      rw [hck]
      rfl
    refine ⟨hrun, rfl, ?_⟩
    rw [hrun]
    exact cacheLookup_set_self st k _ _

/-- C1 witness: a record last active at instant 0 with a 10ns inactivity
budget, read at instant 20 (expired and destroyed; a second read misses)
and at instant 5 (touched and re-persisted with the remaining ttl). -/
theorem claim_C1_witness :
    (managerGet decW encW 10 20 [(['s'], (.bytes [⟨['s'], ['t'], [], 100, 0⟩], 50))] ['s']
       = (cacheDelete [(['s'], (.bytes [⟨['s'], ['t'], [], 100, 0⟩], 50))] ['s'],
          .error .inactivityExpired))
  ∧ (managerGet decW encW 10 5 [(['s'], (.bytes [⟨['s'], ['t'], [], 100, 0⟩], 50))] ['s']
       = (cacheSet [(['s'], (.bytes [⟨['s'], ['t'], [], 100, 0⟩], 50))] ['s']
            (.bytes [SessionData.touch 5 ⟨['s'], ['t'], [], 100, 0⟩]) (100 - 5),
          .ok (SessionData.touch 5 ⟨['s'], ['t'], [], 100, 0⟩))) := by
  constructor
  · exact ((claim_C1_get_lifecycle decW encW 10 20 _ ['s'] [⟨['s'], ['t'], [], 100, 0⟩] 50
      ⟨['s'], ['t'], [], 100, 0⟩ (by decide) (by decide) (by decide)).1 (by decide)).1
  · exact ((claim_C1_get_lifecycle decW encW 10 5 _ ['s'] [⟨['s'], ['t'], [], 100, 0⟩] 50
      ⟨['s'], ['t'], [], 100, 0⟩ (by decide) (by decide) (by decide)).2 (by decide)).1

/-- C6 (amended): `Refresh(id, duration)` renews the logical Expiration to
`now + duration` unclamped (Renew runs before the compliance clamp), while
the ttl it persists is `min(duration, MaxSessionDuration)` when
`MaxSessionDuration > 0`; the persisted ttl therefore matches the time
remaining until Expiration exactly when `MaxSessionDuration ≤ 0` or
`duration ≤ MaxSessionDuration`. -/
theorem claim_C6_refresh_clamp {α V : Type} (dec : List α → Option (SessionData V))
    (enc : SessionData V → List α) (inactT maxDur now : Int) (st : CacheSt α) (k : Str)
    (bs : List α) (t0 : Int) (data : SessionData V) (d : Int)
    (hfound : cacheLookup st k = some (.bytes bs, t0))
    (hbs : bs ≠ [])
    (hdec : dec bs = some data)
    (hck : checkInactivity inactT now data = false) :
    (managerRefresh dec enc inactT maxDur now st k d).2 = .ok ()
  ∧ cacheLookup (managerRefresh dec enc inactT maxDur now st k d).1 k
      = some (.bytes (enc ((data.touch now).renew now d)),
              if 0 < maxDur then min d maxDur else d)
  ∧ ((data.touch now).renew now d).expiration = now + d
  ∧ ((if 0 < maxDur then min d maxDur else d) = d ↔ (0 < maxDur → d ≤ maxDur)) := by
  have hget : adapterGet dec st k = .found data := by
    cases bs with
    | nil => exact absurd rfl hbs
    | cons x xs =>
      unfold adapterGet
      rw [hfound]
      dsimp only
      rw [hdec]
  have hmg : managerGet dec enc inactT now st k
      = (cacheSet st k (.bytes (enc (data.touch now))) ((data.touch now).expiration - now),
         .ok (data.touch now)) := by
    unfold managerGet
    rw [hget]
    dsimp only
    rw [hck]
    rfl
  have hrun : managerRefresh dec enc inactT maxDur now st k d
      = (cacheSet (cacheSet st k (.bytes (enc (data.touch now)))
            ((data.touch now).expiration - now)) k
          (.bytes (enc ((data.touch now).renew now d)))
          (if 0 < maxDur then min d maxDur else d), .ok ()) := by
    unfold managerRefresh
    rw [hmg]
    rfl
  refine ⟨by rw [hrun], ?_, rfl, ?_⟩
  · rw [hrun]
    exact cacheLookup_set_self _ k _ _
  · constructor
    · intro he hlt
      by_cases h0 : 0 < maxDur
      · rw [if_pos h0] at he; omega
      · exact absurd hlt (by omega)
    · intro himp
      by_cases h0 : 0 < maxDur
      · rw [if_pos h0]; have := himp h0; omega
      · rw [if_neg h0]

/-- C6 counterexample: with `MaxSessionDuration = 10` and `duration = 20`
at instant 0, `Refresh` stores a record whose Expiration is 20 while the
persisted ttl is the clamped 10; the claim's `Expiration = now +
min(duration, MaxSessionDuration) = 10` is violated and ttl and Expiration
are not aligned. -/
theorem claim_C6_counterexample :
    (managerRefresh decW encW 0 10 0 [(['s'], (.bytes [⟨['s'], ['t'], [], 100, 0⟩], 50))] ['s'] 20).2
      = .ok ()
  ∧ cacheLookup
      (managerRefresh decW encW 0 10 0 [(['s'], (.bytes [⟨['s'], ['t'], [], 100, 0⟩], 50))] ['s'] 20).1
      ['s']
      = some (.bytes [(⟨['s'], ['t'], [], 20, 0⟩ : SDN)], 10)
  ∧ ((20 : Int) = 0 + min 20 10 → False)
  ∧ ((10 : Int) = 20 - 0 → False) := by
  refine ⟨rfl, rfl, by decide, by decide⟩

/-- C6 witness: the aligned case `duration = 7 ≤ MaxSessionDuration = 10`. -/
theorem claim_C6_witness :
    cacheLookup
      (managerRefresh decW encW 0 10 0 [(['s'], (.bytes [⟨['s'], ['t'], [], 100, 0⟩], 50))] ['s'] 7).1
      ['s']
      = some (.bytes [(⟨['s'], ['t'], [], 7, 0⟩ : SDN)],
              if (0 : Int) < 10 then min 7 10 else 7) :=
  (claim_C6_refresh_clamp decW encW 0 10 0 _ ['s'] [⟨['s'], ['t'], [], 100, 0⟩] 50
    ⟨['s'], ['t'], [], 100, 0⟩ 7 (by decide) (by decide) (by decide) (by decide)).2.1

/-- C3 counterexample: `RegenerateSessionID` does not lock under
`"lock:"+oldID`.  With the cell `"lock:a"` occupied by a lock value (the
key the claim names), regeneration of session `"a"` — whose Data map is
nonempty, so the nil-data abort does not fire — still succeeds, because the
key actually taken is `lockKeyOf "a" = "hyy_session_lock:a"`, a different
string. -/
theorem claim_C3_counterexample :
    (managerRegenerate decW encW 0 0 ['b'] ['t']
       [("lock:".toList ++ ['a'], (.str lockValue, 5 * nsPerSec)),
        (['a'], (.bytes [(⟨['a'], ['t'], [(['k'], 1)], 100, 0⟩ : SDN)], 50))] ['a']).2
      = .ok ['b']
  ∧ cacheLookup
      [("lock:".toList ++ ['a'], (.str lockValue, 5 * nsPerSec)),
       (['a'], (.bytes [(⟨['a'], ['t'], [(['k'], 1)], 100, 0⟩ : SDN)], 50))]
      ("lock:".toList ++ ['a'])
      = some (.str lockValue, 5 * nsPerSec)
  ∧ lockKeyOf ['a'] ≠ "lock:".toList ++ ['a'] :=
  ⟨rfl, rfl, by decide⟩

/-- C3 (amended): `RegenerateSessionID` acquires its cache-resident lock
under key `"hyy_session_lock:"+oldID` (not `"lock:"+oldID`) through the
atomic create-if-absent `Add` with a 5-second ttl; when that key is already
occupied the call aborts with the lock-contention error and the cache state
is returned unchanged; and after a successful acquisition the lock cell is
removed by an explicit delete on every exit path, error or success. -/
theorem claim_C3_lock_discipline {α V : Type} (dec : List α → Option (SessionData V))
    (enc : SessionData V → List α) (inactT now : Int) (newID token : Str)
    (st : CacheSt α) (oldID : Str) :
    lockKeyOf oldID = "hyy_session_lock:".toList ++ oldID
  ∧ (∀ e, cacheLookup st (lockKeyOf oldID) = some e →
      managerRegenerate dec enc inactT now newID token st oldID
        = (st, .error .lockContention))
  ∧ (cacheLookup st (lockKeyOf oldID) = none →
      adapterAdd st (lockKeyOf oldID) lockValue (5 * nsPerSec)
        = .ok (cacheSet st (lockKeyOf oldID) (.str lockValue) (5 * nsPerSec))
      ∧ cacheLookup (managerRegenerate dec enc inactT now newID token st oldID).1
          (lockKeyOf oldID) = none) := by
  refine ⟨rfl, ?_, ?_⟩
  · intro e he
    have hAdd : adapterAdd st (lockKeyOf oldID) lockValue (5 * nsPerSec) = .error () := by
      unfold adapterAdd cacheAdd
      rw [he]
    unfold managerRegenerate
    dsimp only
    rw [hAdd]
  · intro h
    have hAdd : adapterAdd st (lockKeyOf oldID) lockValue (5 * nsPerSec)
        = .ok (cacheSet st (lockKeyOf oldID) (.str lockValue) (5 * nsPerSec)) := by
      unfold adapterAdd cacheAdd
      rw [h]
    refine ⟨hAdd, ?_⟩
    unfold managerRegenerate
    dsimp only
    rw [hAdd]
    dsimp only
    rcases hm : managerGet dec enc inactT now
        (cacheSet st (lockKeyOf oldID) (.str lockValue) (5 * nsPerSec)) oldID with ⟨st2, res⟩
    cases res with
    | error e =>
      dsimp only
      exact cacheLookup_delete_self st2 (lockKeyOf oldID)
    | ok od =>
      dsimp only
      split
      · exact cacheLookup_delete_self st2 (lockKeyOf oldID)
      · exact cacheLookup_delete_self _ (lockKeyOf oldID)

/-- C3 witness: the contention abort on an occupied lock key and the
release after a run that starts with the lock key free (that run exits
through the nil-data error, one of the post-acquisition paths). -/
theorem claim_C3_witness :
    managerRegenerate decW encW 0 0 ['b'] ['t']
        [(lockKeyOf ['a'], (.str lockValue, 7))] ['a']
      = ([(lockKeyOf ['a'], (.str lockValue, 7))], .error .lockContention)
  ∧ cacheLookup
      (managerRegenerate decW encW 0 0 ['b'] ['t']
        [(['a'], (.bytes [(⟨['a'], ['t'], [], 100, 0⟩ : SDN)], 50))] ['a']).1
      (lockKeyOf ['a']) = none :=
  ⟨(claim_C3_lock_discipline decW encW 0 0 ['b'] ['t']
      [(lockKeyOf ['a'], (.str lockValue, 7))] ['a']).2.1
      (.str lockValue, 7) (by decide),
   ((claim_C3_lock_discipline decW encW 0 0 ['b'] ['t']
      [(['a'], (.bytes [(⟨['a'], ['t'], [], 100, 0⟩ : SDN)], 50))] ['a']).2.2 (by decide)).2⟩

/-- A record whose LastActive field equals the current instant is never
inactive. -/
theorem checkInactivity_of_lastActive {V : Type} (inactT now : Int) (s : SessionData V)
    (h : s.lastActive = now) : checkInactivity inactT now s = false := by
  unfold checkInactivity
  rw [h]
  split
  · simp only [decide_eq_false_iff_not]
    omega
  · rfl

/-- C2: a successful `RegenerateSessionID(old)` returns the freshly minted
id `new ≠ old`; afterwards `Get(new)` yields a session whose Data mapping
holds exactly the entries the old session had, and `Get(old)` reports
not-found.  Freshness of the UUID (`new` differing from the old id and from
the lock key) is a hypothesis on the minting oracle; the old record's Data
must be nonempty, since a gob-decoded empty map is nil and the call then
aborts with the "old session data is nil" error instead of succeeding. -/
theorem claim_C2_regenerate {α V : Type} (dec : List α → Option (SessionData V))
    (enc : SessionData V → List α) (inactT now : Int) (newID token : Str)
    (st : CacheSt α) (oldID : Str) (bs : List α) (t0 : Int) (oldData : SessionData V)
    (hdec_enc : ∀ sd, dec (enc sd) = some sd)
    (henc_ne : ∀ sd, enc sd ≠ [])
    (hfound : cacheLookup st oldID = some (.bytes bs, t0))
    (hbs : bs ≠ [])
    (hdecbs : dec bs = some oldData)
    (hlock : cacheLookup st (lockKeyOf oldID) = none)
    (hck : checkInactivity inactT now oldData = false)
    (hne : newID ≠ oldID)
    (hnl : newID ≠ lockKeyOf oldID)
    (hnodup : (oldData.data.map Prod.fst).Nodup)
    (hdata : oldData.data ≠ []) :
    (managerRegenerate dec enc inactT now newID token st oldID).2 = .ok newID
  ∧ newID ≠ oldID
  ∧ (managerGet dec enc inactT now
        (managerRegenerate dec enc inactT now newID token st oldID).1 newID).2
      = .ok (SessionData.touch now
          ⟨newID, token, oldData.data, now + (oldData.expiration - now), now⟩)
  ∧ (∀ key, lookupData (SessionData.touch now
        (⟨newID, token, oldData.data, now + (oldData.expiration - now), now⟩
          : SessionData V)).data key
      = lookupData oldData.data key)
  ∧ (∀ now2, (managerGet dec enc inactT now2
        (managerRegenerate dec enc inactT now newID token st oldID).1 oldID).2
      = .error .notFound) := by
  have hold_ne : oldID ≠ lockKeyOf oldID := Ne.symm (lockKeyOf_ne_self oldID)
  have hAdd : adapterAdd st (lockKeyOf oldID) lockValue (5 * nsPerSec)
      = .ok (cacheSet st (lockKeyOf oldID) (.str lockValue) (5 * nsPerSec)) := by
    unfold adapterAdd cacheAdd
    rw [hlock]
  have hfound1 : cacheLookup
      (cacheSet st (lockKeyOf oldID) (.str lockValue) (5 * nsPerSec)) oldID
      = some (.bytes bs, t0) := by
    rw [cacheLookup_set_ne st (lockKeyOf oldID) oldID _ _ hold_ne]
    exact hfound
  have hget1 : adapterGet dec
      (cacheSet st (lockKeyOf oldID) (.str lockValue) (5 * nsPerSec)) oldID
      = .found oldData := by
    cases bs with
    | nil => exact absurd rfl hbs
    | cons x xs =>
      unfold adapterGet
      rw [hfound1]
      dsimp only
      rw [hdecbs]
  have hmg : managerGet dec enc inactT now
      (cacheSet st (lockKeyOf oldID) (.str lockValue) (5 * nsPerSec)) oldID
      = (cacheSet (cacheSet st (lockKeyOf oldID) (.str lockValue) (5 * nsPerSec)) oldID
           (.bytes (enc (oldData.touch now))) ((oldData.touch now).expiration - now),
         .ok (oldData.touch now)) := by
    unfold managerGet
    rw [hget1]
    dsimp only
    rw [hck]
    rfl
  have hcopy : copyData (oldData.touch now).data = oldData.data :=
    copyData_eq oldData.data hnodup
  have hrun : managerRegenerate dec enc inactT now newID token st oldID
      = (cacheDelete
           (cacheDelete
             (cacheSet
               (cacheSet (cacheSet st (lockKeyOf oldID) (.str lockValue) (5 * nsPerSec))
                 oldID (.bytes (enc (oldData.touch now)))
                 ((oldData.touch now).expiration - now))
               newID
               (.bytes (enc (⟨newID, token, oldData.data,
                  now + (oldData.expiration - now), now⟩ : SessionData V)))
               ((now + (oldData.expiration - now)) - now))
             oldID)
           (lockKeyOf oldID),
         .ok newID) := by
    unfold managerRegenerate
    dsimp only
    rw [hAdd]
    dsimp only
    rw [hmg]
    dsimp only
    have hb : (SessionData.touch now oldData).data.isEmpty = false := by
      have hplain : oldData.data.isEmpty = false := by
        cases hq : oldData.data with
        | nil => exact absurd hq hdata
        | cons a t => rfl
      exact hplain
    rw [hb]
    rw [hcopy]
    rfl
  refine ⟨by rw [hrun], hne, ?_, fun key => rfl, ?_⟩
  · have hlook : cacheLookup (managerRegenerate dec enc inactT now newID token st oldID).1 newID
        = some (.bytes (enc (⟨newID, token, oldData.data,
            now + (oldData.expiration - now), now⟩ : SessionData V)),
            (now + (oldData.expiration - now)) - now) := by
      rw [hrun]
      dsimp only
      rw [cacheLookup_delete_ne _ (lockKeyOf oldID) newID hnl,
        cacheLookup_delete_ne _ oldID newID hne]
      exact cacheLookup_set_self _ newID _ _
    have hget2 : adapterGet dec (managerRegenerate dec enc inactT now newID token st oldID).1 newID
        = .found (⟨newID, token, oldData.data,
            now + (oldData.expiration - now), now⟩ : SessionData V) := by
      cases he : enc (⟨newID, token, oldData.data,
          now + (oldData.expiration - now), now⟩ : SessionData V) with
      | nil => exact absurd he (henc_ne _)
      | cons x xs =>
        unfold adapterGet
        rw [hlook, he]
        dsimp only
        rw [← he, hdec_enc]
    have hck2 : checkInactivity inactT now (⟨newID, token, oldData.data,
        now + (oldData.expiration - now), now⟩ : SessionData V) = false :=
      checkInactivity_of_lastActive inactT now _ rfl
    unfold managerGet
    rw [hget2]
    dsimp only
    rw [hck2]
    rfl
  · intro now2
    have hmiss : adapterGet dec (managerRegenerate dec enc inactT now newID token st oldID).1 oldID
        = .notFound := by
      unfold adapterGet
      rw [hrun]
      dsimp only
      rw [cacheLookup_delete_ne _ (lockKeyOf oldID) oldID hold_ne,
        cacheLookup_delete_self]
    unfold managerGet
    rw [hmiss]

/-- C2 witness: regenerating a concrete session `"a"` holding one Data
entry into the fresh id `"b"`. -/
theorem claim_C2_witness :
    (managerRegenerate decW encW 0 0 ['b'] ['u']
        [(['a'], (.bytes [(⟨['a'], ['t'], [(['k'], 5)], 100, 0⟩ : SDN)], 70))] ['a']).2
      = .ok ['b']
  ∧ (managerGet decW encW 0 0
        (managerRegenerate decW encW 0 0 ['b'] ['u']
          [(['a'], (.bytes [(⟨['a'], ['t'], [(['k'], 5)], 100, 0⟩ : SDN)], 70))] ['a']).1
        ['b']).2
      = .ok (SessionData.touch 0 ⟨['b'], ['u'], [(['k'], 5)], 0 + (100 - 0), 0⟩)
  ∧ (managerGet decW encW 0 3
        (managerRegenerate decW encW 0 0 ['b'] ['u']
          [(['a'], (.bytes [(⟨['a'], ['t'], [(['k'], 5)], 100, 0⟩ : SDN)], 70))] ['a']).1
        ['a']).2
      = .error .notFound := by
  have h := claim_C2_regenerate decW encW 0 0 ['b'] ['u']
    [(['a'], (.bytes [(⟨['a'], ['t'], [(['k'], 5)], 100, 0⟩ : SDN)], 70))] ['a']
    [(⟨['a'], ['t'], [(['k'], 5)], 100, 0⟩ : SDN)] 70
    (⟨['a'], ['t'], [(['k'], 5)], 100, 0⟩ : SDN)
    (fun sd => rfl) (fun sd => List.cons_ne_nil sd [])
    (by decide) (by decide) (by decide) (by decide) (by decide)
    (by decide) (by decide) (by decide) (by decide)
  exact ⟨h.1, h.2.2.1, h.2.2.2.2 3⟩

/-- C4 counterexample: two failures of the claim.  (1) The round trip is
not universal over session-ID strings: for `id = "a.b"` (containing a dot)
`verifySignature (signSessionID id)` yields `("", false)`, not
`("a.b", true)`.  (2) Single-bit corruption of the signature part is not
always rejected: flipping one bit of the final data character of the
base64 signature (`A` → `C`, ASCII xor 2) only alters bits the non-strict
Go base64 decoder discards, and verification still returns `(id, true)`. -/
theorem claim_C4_counterexample :
    verifySignature macZ (signSessionID macZ ('a' :: '.' :: ['b'])) = ([], false)
  ∧ (([] : Str), false) ≠ ('a' :: '.' :: ['b'], true)
  ∧ verifySignature macZ (('i' :: ['d']) ++ '.' :: corruptedSig) = ('i' :: ['d'], true)
  ∧ corruptedSig ≠ b64EncodeBytes (macZ ('i' :: ['d']))
  ∧ b64EncodeBytes (macZ ('i' :: ['d'])) = List.replicate 43 'A' ++ ['=']
  ∧ corruptedSig.length = (b64EncodeBytes (macZ ('i' :: ['d']))).length
  ∧ 'A'.toNat ^^^ 'C'.toNat = 2 := by
  refine ⟨by decide, by decide, by decide, by decide, by decide, by decide, by decide⟩

/-- C4 (amended): for every session ID free of `.` the round trip holds:
`verifySignature (signSessionID id) = (id, true)`; replacing the ID part by
a different dot-free string whose MAC differs is rejected; malformed values
without a dot, values whose signature part is not valid base64, and values
whose signature part decodes to anything other than the MAC of the ID part
are all rejected (fails closed).  The scheme is stated over an arbitrary
MAC whose outputs are byte strings. -/
theorem claim_C4_signature_scheme (mac : Str → List Nat)
    (hlen : ∀ s, ∀ b ∈ mac s, b < 256) :
    (∀ id : Str, '.' ∉ id →
      verifySignature mac (signSessionID mac id) = (id, true))
  ∧ (∀ id id2 : Str, '.' ∉ id → '.' ∉ id2 → mac id2 ≠ mac id →
      verifySignature mac (id2 ++ '.' :: b64EncodeBytes (mac id)) = (id2, false))
  ∧ (∀ s : Str, '.' ∉ s → verifySignature mac s = ([], false))
  ∧ (∀ (id rest : Str), '.' ∉ id → b64DecodeChars rest = none →
      verifySignature mac (id ++ '.' :: rest) = ([], false))
  ∧ (∀ (id rest : Str) (sig : List Nat), '.' ∉ id → b64DecodeChars rest = some sig →
      sig ≠ mac id → verifySignature mac (id ++ '.' :: rest) = (id, false)) := by
  refine ⟨?_, ?_, ?_, ?_, ?_⟩
  · intro id hid
    unfold verifySignature signSessionID
    rw [splitDot2_append id _ hid]
    dsimp only
    rw [b64_decode_encode (mac id) (hlen id)]
    simp
  · intro id id2 hid hid2 hmac
    unfold verifySignature
    rw [splitDot2_append id2 _ hid2]
    dsimp only
    rw [b64_decode_encode (mac id) (hlen id)]
    dsimp only
    simp only [Prod.mk.injEq, true_and, decide_eq_false_iff_not]
    exact fun e => hmac e.symm
  · intro s hs
    unfold verifySignature
    rw [splitDot2_eq_none s hs]
  · intro id rest hid hrest
    unfold verifySignature
    rw [splitDot2_append id rest hid]
    dsimp only
    rw [hrest]
  · intro id rest sig hid hsig hne
    unfold verifySignature
    rw [splitDot2_append id rest hid]
    dsimp only
    rw [hsig]
    dsimp only
    simp only [Prod.mk.injEq, true_and, decide_eq_false_iff_not]
    exact hne

/-- C4 witness: the round trip and a rejected mismatch at concrete
values under the concrete MAC `macZ`. -/
theorem claim_C4_witness :
    verifySignature macZ (signSessionID macZ ['x']) = (['x'], true)
  ∧ verifySignature macZ (['x'] ++ '.' :: ['%', '%', '%', '%']) = ([], false) := by
  have h := claim_C4_signature_scheme macZ
    (fun s b hb => by
      have := List.eq_of_mem_replicate hb
      omega)
  exact ⟨h.1 ['x'] (by decide), h.2.2.2.1 ['x'] ['%', '%', '%', '%'] (by decide) (by decide)⟩

/-- C8: `validateSecurityToken` rejects tokens that fail base64 decoding,
are too short, or decode to fewer than 40 bytes; an adequately long token
is accepted exactly when the embedded timestamp lies in the inclusive
±30-second drift window around now and the trailing 4 bytes equal the
truncated HMAC over the 32 random bytes; and the function coincides
everywhere with its variant lacking the 1-hour check, whose conjunctive
condition (older than an hour AND in the future) is unsatisfiable — the
±30-second rule is the binding freshness constraint. -/
theorem claim_C8_token_validation (mac : List Nat → List Nat) :
    (∀ (now : Int) (token : Str), b64DecodeChars token = none →
       validateSecurityToken mac now token = false)
  ∧ (∀ (now : Int) (token : Str), token.length < 56 →
       validateSecurityToken mac now token = false)
  ∧ (∀ (now : Int) (token : Str) (data : List Nat),
       b64DecodeChars token = some data → data.length < 40 →
       validateSecurityToken mac now token = false)
  ∧ (∀ (now : Int) (token : Str) (data : List Nat),
       b64DecodeChars token = some data → 56 ≤ token.length → 40 ≤ data.length →
       (validateSecurityToken mac now token = true ↔
         (now - 30 * nsPerSec ≤ tokenTimeNs data ∧ tokenTimeNs data ≤ now + 30 * nsPerSec ∧
          (data.drop 36).take 4 = (mac (data.take 32)).take 4)))
  ∧ (∀ (now : Int) (token : Str),
       validateSecurityToken mac now token = validateDrift mac now token) := by
  have hdead : ∀ (now t : Int), ¬(now - t > 3600 * nsPerSec ∧ t > now) := by
    intro now t h
    have h1 := h.1
    have h2 := h.2
    simp only [nsPerSec] at h1
    omega
  refine ⟨?_, ?_, ?_, ?_, ?_⟩
  · intro now token h
    unfold validateSecurityToken
    split
    · rfl
    · rw [h]
  · intro now token h
    unfold validateSecurityToken
    rw [if_pos h]
  · intro now token data hdec hlen
    unfold validateSecurityToken
    split
    · rfl
    · rw [hdec]
      dsimp only
      rw [if_pos hlen]
  · intro now token data hdec h56 h40
    unfold validateSecurityToken
    rw [if_neg (by omega : ¬ token.length < 56), hdec]
    dsimp only
    rw [if_neg (by omega : ¬ data.length < 40), if_neg (hdead now (tokenTimeNs data))]
    by_cases hw : tokenTimeNs data < now - 30 * nsPerSec ∨ tokenTimeNs data > now + 30 * nsPerSec
    · rw [if_pos hw]
      constructor
      · intro h; exact absurd h (by simp)
      · rintro ⟨ha, hb, _⟩
        rcases hw with hw | hw <;> omega
    · rw [if_neg hw]
      push_neg at hw
      simp only [decide_eq_true_eq]
      constructor
      · intro hsg; exact ⟨hw.1, hw.2, hsg⟩
      · rintro ⟨_, _, hsg⟩; exact hsg
  · intro now token
    unfold validateSecurityToken validateDrift
    split
    · rfl
    · cases hd : b64DecodeChars token with
      | none => rfl
      | some data =>
        dsimp only
        split
        · rfl
        · rw [if_neg (hdead now (tokenTimeNs data))]

/-- C8 witness: the concrete 56-character token encoding `dataW` validates
at `now = 10s` under `mac4`. -/
theorem claim_C8_witness :
    validateSecurityToken mac4 (10 * nsPerSec) (b64EncodeBytes dataW) = true :=
  ((claim_C8_token_validation mac4).2.2.2.1 (10 * nsPerSec) (b64EncodeBytes dataW) dataW
    (b64_decode_encode dataW (by decide)) (by decide) (by decide)).mpr
    (by refine ⟨by decide, by decide, by decide⟩)

/-- C5: `GetFromRequest` accepts a request path against the configured
cookie path exactly under the standard rule — exact equality, or the cookie
path is a prefix of the request path and either ends in `/` or the request
path continues with `/` — and its result is the PathMismatch error
precisely when the rule fails; in particular cookie path `/subpath`
matches `/subpath`, `/subpath/` and `/subpath/x` and rejects `/other` and
`/subpathx`.  (The path check is modelled from the spec: the manager.go
version carrying it is absent from the sources.) -/
theorem claim_C5_path_matching {α V : Type} (dec : List α → Option (SessionData V))
    (enc : SessionData V → List α) (inactT : Int) (mac : Str → List Nat)
    (cookiePath requestPath : Str) (now : Int) (st : CacheSt α) (value : Str) :
    (matchCookiePath cookiePath requestPath = true ↔
       (requestPath = cookiePath ∨
         (cookiePath <+: requestPath ∧
           (cookiePath.getLast? = some '/' ∨ requestPath.getD cookiePath.length ' ' = '/'))))
  ∧ ((managerGetFromRequest dec enc inactT mac cookiePath requestPath now st (some value)).2
       = .error .pathMismatch ↔ matchCookiePath cookiePath requestPath = false)
  ∧ (matchCookiePath cookiePath requestPath = false →
       managerGetFromRequest dec enc inactT mac cookiePath requestPath now st (some value)
         = (st, .error .pathMismatch))
  ∧ matchCookiePath "/subpath".toList "/subpath".toList = true
  ∧ matchCookiePath "/subpath".toList "/subpath/".toList = true
  ∧ matchCookiePath "/subpath".toList "/subpath/x".toList = true
  ∧ matchCookiePath "/subpath".toList "/other".toList = false
  ∧ matchCookiePath "/subpath".toList "/subpathx".toList = false := by
  have hmismatch : matchCookiePath cookiePath requestPath = false →
      managerGetFromRequest dec enc inactT mac cookiePath requestPath now st (some value)
        = (st, .error .pathMismatch) := by
    intro hm
    unfold managerGetFromRequest
    rw [hm]
    rfl
  refine ⟨?_, ?_, hmismatch, by decide, by decide, by decide, by decide, by decide⟩
  · simp [matchCookiePath, List.isPrefixOf_iff_prefix]
  · cases hm : matchCookiePath cookiePath requestPath with
    | false =>
      rw [hmismatch hm]
      simp
    | true =>
      unfold managerGetFromRequest
      dsimp only
      rw [if_pos hm]
      rcases hv : verifySignature mac value with ⟨sid, ok⟩
      cases ok with
      | false => simp
      | true =>
        dsimp only
        rcases hg : managerGet dec enc inactT now st sid with ⟨st2, res⟩
        cases res with
        | ok sd => simp
        | error e => simp

/-- C5 witness: a mismatched request path on a concrete state yields the
PathMismatch error, leaving the state unchanged. -/
theorem claim_C5_witness :
    managerGetFromRequest decW encW 0 macZ "/subpath".toList "/other".toList 0
        ([] : CacheSt SDN) (some ['x'])
      = ([], .error .pathMismatch) :=
  (claim_C5_path_matching decW encW 0 macZ "/subpath".toList "/other".toList 0
    ([] : CacheSt SDN) ['x']).2.2.1 (by decide)
